import Mathlib

/-!
# Verification of the simple-table-refine rule engine

A shallow embedding of the simple-table-refine micro-library (JavaScript)
and proofs about its rule-matching and combination engine.

Embedded source files:
* `refine_util` (common utilities): `createEqualityEvaluator`, `RuleCombiner`,
  `prepareListOfIndices`, `findMaxNumCols`, `createKeepIndexChecker`;
* `lib/row_filter.js`: `createKeepRowValFuncs`, `createRowKeepFunc`,
  `ignoreRowIf`;
* `col_filter`: `findColsByVal`, `findColsByCombinedVals`, `removeCols`,
  `ignoreColIf`;
* `str_ops`: `replace`, `interpretStr`;
* the orchestrator: `executeOperation`, `refine`.

Modelling conventions:
* JavaScript cell scalars (string / number / boolean) are the inductive
  `JsVal`; numeric cells hold rationals, which represent exactly the
  finite double values arising here.  `===` is `JsVal` equality (values
  of different runtime types are never strictly equal).
* Host behaviors that the library delegates — the `moment` date library,
  and the IEEE-754-double parse/format round-trips behind
  `parseInt`/`parseFloat`/`Number.prototype.toString` — are abstracted as
  the `HostEnv` parameter threaded through `str_ops` and the
  orchestrator.
* Code that can throw a `TypeError` (calling `undefined` or `null` as a
  function, reading `.length` of `undefined`) is modelled in the
  `Except Unit` monad: `.error ()` is an uncaught exception.
* JavaScript's `Number(s)` is modelled as `jsNumber`: `some n` for an
  optionally-signed integer literal and `none` for `NaN`.  Comparison
  operators applied to `NaN` are all false, except `!=` which is true.
-/

/-- A JavaScript scalar cell value: string, number, or boolean.  Numbers
are modelled as rationals, which represent exactly the finite double
values arising here. -/
inductive JsVal where
  | str (s : String)
  | num (q : ℚ)
  | bool (b : Bool)
deriving DecidableEq, Inhabited

/-- A table: an ordered list of rows of cells (rows may be ragged). -/
abbrev Table := List (List JsVal)

/-- A raw user row/column specifier: `undefined`, the literal string
`"any"`, a single index, or an array of indices. -/
inductive Sel where
  | undef
  | anyOpt
  | one (n : Nat)
  | many (l : List Nat)
deriving DecidableEq

/-- `refine_util.prepareListOfIndices`: `undefined` and `'any'` become the
ANY marker (modelled as `none`); an array is kept as is; a scalar becomes a
one-element array. -/
def prepareListOfIndices : Sel → Option (List Nat)
  | .undef => none
  | .anyOpt => none
  | .one n => some [n]
  | .many l => some l

/-- The `index` field of a rule: a single numeric index, an array of
indices, or an equality-expression string such as `">=3"`. -/
inductive IndexSpec where
  | one (i : Int)
  | many (l : List Int)
  | expr (s : String)
deriving DecidableEq

/-- One rule object.  JavaScript rules are duck-typed: a rule participates
in index matching when it has an `index` field, in value matching when it
has a `val` field, and in nested-group matching when it has an `allOf`
field, so each field is optional and independent. -/
inductive Rule where
  | mk (index : Option IndexSpec) (col : Sel) (row : Sel)
       (val : Option JsVal) (allOf : Option (List Rule))

/-- The `index` field of a rule. -/
def Rule.index : Rule → Option IndexSpec
  | .mk i _ _ _ _ => i

/-- The `col` field of a rule. -/
def Rule.col : Rule → Sel
  | .mk _ c _ _ _ => c

/-- The `row` field of a rule. -/
def Rule.row : Rule → Sel
  | .mk _ _ r _ _ => r

/-- The `val` field of a rule. -/
def Rule.val : Rule → Option JsVal
  | .mk _ _ _ v _ => v

/-- The `allOf` field of a rule. -/
def Rule.allOf : Rule → Option (List Rule)
  | .mk _ _ _ _ a => a

/-- The six supported two-character equality-expression operators. -/
inductive EqOp where
  | eq | gt | ge | lt | le | ne
deriving DecidableEq

/-- The `equalityStrategies` lookup table: maps a two-character operator
token to its strategy, `none` when the token is not a key of the table. -/
def equalityStrategies : String → Option EqOp
  | "==" => some .eq
  | "> " => some .gt
  | ">=" => some .ge
  | "< " => some .lt
  | "<=" => some .le
  | "!=" => some .ne
  | _ => none

/-- The numeric value of a decimal digit character, `none` otherwise. -/
def charDigit (c : Char) : Option Nat :=
  if '0' ≤ c ∧ c ≤ '9' then some (c.toNat - '0'.toNat) else none

/-- Read a non-empty all-digit character list as a natural number. -/
def digitsToNat (cs : List Char) : Option Nat :=
  cs.foldl
    (fun acc c =>
      match acc, charDigit c with
      | some n, some d => some (n * 10 + d)
      | _, _ => none)
    (if cs.isEmpty then none else some 0)

/-- JavaScript `Number(s)` restricted to the integer-literal / `NaN` cases
exercised here: `some n` for an optionally-signed integer literal, `none`
(`NaN`) for everything else. -/
def jsNumber (s : String) : Option Int :=
  match s.data with
  | '-' :: rest => (digitsToNat rest).map (fun n => -(n : Int))
  | cs => (digitsToNat cs).map (fun n => (n : Int))

/-- A built equality evaluator: the operator together with the parsed
right-hand operand (`none` is `NaN`). -/
abbrev EqEvaluator := EqOp × Option Int

/-- Apply an equality evaluator to an operand (the operand is on the LEFT
of the operator).  Comparisons against `NaN` are all false, except `!=`
which is always true. -/
def evalEqualityEvaluator (ev : EqEvaluator) (op : Int) : Bool :=
  match ev with
  | (.eq, some v) => op == v
  | (.gt, some v) => op > v
  | (.ge, some v) => op ≥ v
  | (.lt, some v) => op < v
  | (.le, some v) => op ≤ v
  | (.ne, some v) => op != v
  | (.ne, none) => true
  | (_, none) => false

/-- `refine_util.createEqualityEvaluator`.  Strings shorter than three
characters return `null` (`.ok none`).  Otherwise the first two characters
are looked up in `equalityStrategies` and **invoked immediately**:
`equalityStrategies[operator](value)`.  When the operator is not a key of
the table this invokes `undefined` as a function and throws a `TypeError`
(`.error ()`); the source's `if (strategy === undefined)` test sits after
the call and can never fire. -/
def createEqualityEvaluator (inequality : String) : Except Unit (Option EqEvaluator) :=
  if inequality.length < 3 then
    .ok none
  else
    match equalityStrategies (inequality.take 2) with
    | none => .error ()
    | some op => .ok (some (op, jsNumber (inequality.drop 2)))

/-- The state built by `refine_util.createKeepIndexChecker`: the count of
index-bearing rules, the accumulated exclusion indices, and the list of
built equality evaluators (`none` is a `null` pushed by a too-short
expression string). -/
structure KeepIndexChecker where
  numIndexRules : Nat
  ignoreRows : List Int
  evaluators : List (Option EqEvaluator)
deriving DecidableEq

/-- One step of `createKeepIndexChecker`'s accumulation loop over the
index-bearing rules: arrays extend the exclusion set, strings build an
equality evaluator (possibly throwing), scalars join the exclusion set. -/
def keepIndexStep (acc : List Int × List (Option EqEvaluator)) (r : Rule) :
    Except Unit (List Int × List (Option EqEvaluator)) :=
  match r.index with
  | some (.many l) => .ok (acc.1 ++ l, acc.2)
  | some (.expr s) =>
      match createEqualityEvaluator s with
      | .error e => .error e
      | .ok ev => .ok (acc.1, acc.2 ++ [ev])
  | some (.one i) => .ok (acc.1 ++ [i], acc.2)
  | none => .ok acc

/-- `refine_util.createKeepIndexChecker`: build the index-checker state
from the index-bearing rules of a rule list.  Throws when a malformed
operator token reaches `createEqualityEvaluator`. -/
def createKeepIndexChecker (rules : List Rule) : Except Unit KeepIndexChecker :=
  let ignoreRowRules := rules.filter (fun r => r.index.isSome)
  match ignoreRowRules.foldlM keepIndexStep ([], []) with
  | .error e => .error e
  | .ok acc => .ok ⟨ignoreRowRules.length, acc.1, acc.2⟩

/-- Apply the function returned by `createKeepIndexChecker` to an index.
With no index-bearing rules the function is constantly `true`.  Otherwise
the loop invokes every stored evaluator; invoking a stored `null` throws a
`TypeError`.  The result is
`!ignoreByIndex && (numEvaluators == 0 || !passesEqualityTests)`. -/
def applyKeepIndexChecker (c : KeepIndexChecker) (rowIndex : Int) : Except Unit Bool :=
  if c.numIndexRules == 0 then
    .ok true
  else if c.evaluators.any (fun e => e.isNone) then
    .error ()
  else
    let ignoreByIndex := c.ignoreRows.contains rowIndex
    let passesEqualityTests :=
      c.evaluators.all (fun e =>
        match e with
        | some ev => evalEqualityEvaluator ev rowIndex
        | none => true)
    .ok (!ignoreByIndex && (c.evaluators.length == 0 || !passesEqualityTests))

/-- `refine_util.RuleCombiner`: `reportShouldKeep` appends each clause
result to `clauseResults`; `shouldKeep` combines them.  AND mode keeps
unless some clause reported `false`; OR mode keeps unless every clause
reported `false` (i.e. keeps iff some clause reported `true`). -/
def RuleCombiner.shouldKeep (combineWithAnd : Bool) (clauseResults : List Bool) : Bool :=
  if combineWithAnd then
    !(clauseResults.contains false)
  else
    clauseResults.contains true

/-- `refine_util.findMaxNumCols`: the maximum row length of a table. -/
def findMaxNumCols (targetRows : Table) : Nat :=
  (targetRows.map (fun e => e.length)).foldr max 0

/-- One of the closures built by `row_filter.createKeepRowValFuncs`: with
an ANY column selector, keep (`true`) unless the target value occurs at
some position of the row; with a concrete index list, keep unless the
target value occurs at an in-bounds selected position
(`hasCol && row[currentCol] === targetVal`). -/
def keepRowValFunc (rule : Rule) (row : List JsVal) (_rowIndex : Nat) : Bool :=
  match prepareListOfIndices rule.col with
  | none =>
      !(row.any (fun cell => rule.val == some cell))
  | some targetCols =>
      !(targetCols.any (fun currentCol =>
          decide (row.length > currentCol) && (rule.val == row.get? currentCol)))

/-- `row_filter.createKeepRowValFuncs`: one keep-function per value rule,
in rule order. -/
def createKeepRowValFuncs (ignoreValueRules : List Rule) :
    List (List JsVal → Nat → Bool) :=
  ignoreValueRules.map keepRowValFunc

mutual

/-- `row_filter.createRowKeepFunc` (from `lib/row_filter.js`), applied to
one row.  Builds the index checker over the whole rule list, the value
keep-functions over the `val`-bearing rules, and recursively an OR-mode
(`combinedWithAnd = false`) row-keep function for each `allOf` group; then
combines.  With no index-bearing rules the value/group votes alone feed
the combiner; with index-bearing rules and no other votes the index
checker decides alone; otherwise the index vote is reported first,
followed by the value and group votes. -/
def createRowKeepFunc (rules : List Rule) (combinedWithAnd : Bool)
    (row : List JsVal) (rowIndex : Nat) : Except Unit Bool :=
  match createKeepIndexChecker rules with
  | .error e => .error e
  | .ok checker =>
    let hasIgnoreRules := (rules.filter (fun r => r.index.isSome)).length > 0
    let shouldKeepValueFuncs :=
      createKeepRowValFuncs (rules.filter (fun r => r.val.isSome))
    let valueVotes := shouldKeepValueFuncs.map (fun f => f row rowIndex)
    match combinedVotes rules row rowIndex with
    | .error e => .error e
    | .ok groupVotes =>
      let shouldKeepVotes := valueVotes ++ groupVotes
      if !hasIgnoreRules then
        .ok (RuleCombiner.shouldKeep combinedWithAnd shouldKeepVotes)
      else if shouldKeepVotes.length == 0 then
        applyKeepIndexChecker checker rowIndex
      else
        match applyKeepIndexChecker checker rowIndex with
        | .error e => .error e
        | .ok indexVote =>
          .ok (RuleCombiner.shouldKeep combinedWithAnd (indexVote :: shouldKeepVotes))
termination_by (sizeOf rules, 1)

/-- The keep-votes of the `allOf` groups of a rule list, in rule order:
each group is evaluated by a recursive `createRowKeepFunc` in OR mode
(`combinedWithAnd = false`). -/
def combinedVotes (rules : List Rule) (row : List JsVal) (rowIndex : Nat) :
    Except Unit (List Bool) :=
  match rules with
  | [] => .ok []
  | .mk _ _ _ _ (some sub) :: rest =>
      match createRowKeepFunc sub false row rowIndex with
      | .error e => .error e
      | .ok vote =>
        match combinedVotes rest row rowIndex with
        | .error e => .error e
        | .ok votes => .ok (vote :: votes)
  | .mk _ _ _ _ none :: rest => combinedVotes rest row rowIndex
termination_by (sizeOf rules, 0)

end

/-- The row loop of `row_filter.ignoreRowIf`, keeping rows whose keep
function returns `true`, starting at row index `rowIndex`. -/
def ignoreRowIfGo (params : List Rule) (rows : Table) (rowIndex : Nat) :
    Except Unit Table :=
  match rows with
  | [] => .ok []
  | targetRow :: rest => do
      let keep ← createRowKeepFunc params true targetRow rowIndex
      let tail ← ignoreRowIfGo params rest (rowIndex + 1)
      .ok (if keep then targetRow :: tail else tail)

/-- `row_filter.ignoreRowIf`: build the top-level keep function in AND
mode (`createRowKeepFunc(params, true)`) and keep exactly the rows for
which it returns `true`, in order. -/
def ignoreRowIf (targetRows : Table) (params : List Rule) : Except Unit Table :=
  ignoreRowIfGo params targetRows 0

/-- `col_filter.findColsByVal`'s inner `checkRows`: report, in row-major
order, every column position of the given rows that holds the target
value. -/
def checkRowsCols (val : Option JsVal) (rows : Table) : List Nat :=
  (rows.map (fun row =>
    (List.range row.length).filter (fun colIndex => val == row.get? colIndex))).flatten

/-- `col_filter.findColsByVal`: for each value rule, scan either every row
(ANY selector) or the selected rows — with out-of-range selected row
indices filtered away (`i < numRows`) — and collect every column index
holding the rule's value. -/
def findColsByVal (valueIndexIgnoreRules : List Rule) (targetRows : Table) : List Nat :=
  (valueIndexIgnoreRules.map (fun rule =>
    match prepareListOfIndices rule.row with
    | none => checkRowsCols rule.val targetRows
    | some rowIndices =>
        let numRows := targetRows.length
        let inBounds := rowIndices.filter (fun i => i < numRows)
        let ruleRows := inBounds.map (fun i => targetRows.getD i [])
        checkRowsCols rule.val ruleRows)).flatten

/-- `col_filter.findColsByCombinedVals`'s inner `checkRows`: scan a list
of rows (each possibly `undefined`, modelled as `none`) for the value at
the given column, returning `true` at the first in-bounds match.  Reading
`.length` of an `undefined` row throws a `TypeError`. -/
def checkRowsCombined (rows : List (Option (List JsVal))) (val : Option JsVal)
    (colIndex : Nat) : Except Unit Bool :=
  match rows with
  | [] => .ok false
  | none :: _ => .error ()
  | some row :: rest =>
      if decide (row.length > colIndex) && (val == row.get? colIndex) then
        .ok true
      else
        checkRowsCombined rest val colIndex

/-- `findColsByCombinedVals`'s `runValueSearchRules` for one column: the
column matches when every `val`-bearing sub-rule finds its value at that
column in its selected rows.  Note that — unlike `findColsByVal` — the
concrete-selector branch maps `rowIndices.map(i => targetRows[i])` without
a bounds filter, so an out-of-range selected row index produces an
`undefined` row. -/
def runValueSearchRules (valueSearchRules : List Rule) (targetRows : Table)
    (colIndex : Nat) : Except Unit Bool :=
  valueSearchRules.foldlM (fun matched subRule => do
    let found ←
      match prepareListOfIndices subRule.row with
      | none => checkRowsCombined (targetRows.map some) subRule.val colIndex
      | some rowIndices =>
          checkRowsCombined (rowIndices.map (fun i => targetRows.get? i))
            subRule.val colIndex
    pure (matched && found)) true

/-- `col_filter.findColsByCombinedVals`: the columns satisfying every
sub-rule of an `allOf` group.  Index-bearing sub-rules restrict the
columns examined (a column is examined when the index checker votes to
drop it); when no column is so restricted, all columns are examined.  The
column count is `targetRows[0].length`, which throws on an empty table. -/
def findColsByCombinedVals (rules : List Rule) (targetRows : Table) :
    Except Unit (List Nat) := do
  let valueSearchRules := rules.filter (fun r => r.val.isSome)
  let indexRules := rules.filter (fun r => r.index.isSome)
  match targetRows with
  | [] => .error ()
  | row0 :: _ => do
    let numCols := row0.length
    let checker ← createKeepIndexChecker indexRules
    let colsToExamine ← (List.range numCols).filterM (fun i => do
        let keep ← applyKeepIndexChecker checker (Int.ofNat i)
        pure (!keep))
    let examineAllCols := colsToExamine.length == 0
    (List.range numCols).filterM (fun colIndex =>
        if examineAllCols || colsToExamine.contains colIndex then
          runValueSearchRules valueSearchRules targetRows colIndex
        else
          pure false)

/-- `col_filter.removeCols`: rebuild each row keeping the elements whose
position is not in the drop list (`cols.indexOf(i) === -1`).  A ragged row
shorter than a dropped position simply has nothing to omit there. -/
def removeCols (targetRows : Table) (cols : List Nat) : Table :=
  targetRows.map (fun row =>
    (row.enum.filter (fun p => !(cols.contains p.1))).map (fun p => p.2))

/-- The index-rule part of `ignoreColIf`'s drop list: every column index
of `0 ... targetRows[0].length - 1` for which the index checker built from
the `index`-bearing rules votes not-keep.  The checker is built before
`targetRows[0].length` is read (which throws on an empty table). -/
def colIndexDrops (targetRows : Table) (params : List Rule) : Except Unit (List Nat) := do
  let colIndexIgnoreRules := params.filter (fun r => r.index.isSome)
  let indexChecker ← createKeepIndexChecker colIndexIgnoreRules
  match targetRows with
  | [] => .error ()
  | row0 :: _ =>
    (List.range row0.length).filterM (fun i => do
      let keep ← applyKeepIndexChecker indexChecker (Int.ofNat i)
      pure (!keep))

/-- The value-rule part of `ignoreColIf`'s drop list. -/
def colValDrops (targetRows : Table) (params : List Rule) : List Nat :=
  findColsByVal (params.filter (fun r => r.val.isSome)) targetRows

/-- The `allOf`-rule part of `ignoreColIf`'s drop list: the concatenation
of `findColsByCombinedVals` over each group's sub-rules. -/
def colCombinedDrops (targetRows : Table) (params : List Rule) : Except Unit (List Nat) := do
  let combineRules := params.filter (fun r => r.allOf.isSome)
  let dropLists ← combineRules.mapM (fun r =>
    findColsByCombinedVals (r.allOf.getD []) targetRows)
  pure dropLists.flatten

/-- `col_filter.ignoreColIf`: concatenate the index-based, value-based and
`allOf`-based drop lists (the final `parseInt` pass over the collected
indices is the identity on the integer indices modelled here) and build
the output by `removeCols`. -/
def ignoreColIf (targetRows : Table) (params : List Rule) : Except Unit Table :=
  match colIndexDrops targetRows params with
  | .error e => .error e
  | .ok a =>
      match colCombinedDrops targetRows params with
      | .error e => .error e
      | .ok c => .ok (removeCols targetRows (a ++ colValDrops targetRows params ++ c))

/-- The host-dependent behaviors delegated by `str_ops`:

* `dateParse cell fmt`: the external `moment` library — `some iso`
  (`moment(cell, fmt).toISOString()`) when `moment(cell, fmt).isValid()`,
  `none` otherwise;
* `parseNumber s`: the source converts a string cell to
  `parseInt(cell)` when `parseInt(cell).toString() === cell`, else to
  `parseFloat(cell)` when `parseFloat(cell).toString() === cell`; both
  round-trips are decided by IEEE-754 double parsing and formatting and
  are abstracted here as `some q` (the parsed value) when either
  round-trip succeeds, `none` otherwise;
* `numberToString q`: `String(q)`, the double-formatting coercion used by
  `String.prototype.replace` on a numeric replacement value. -/
structure HostEnv where
  dateParse : JsVal → String → Option String
  parseNumber : String → Option ℚ
  numberToString : ℚ → String

/-- One replace rule: `{orig, new, row?, col?}` (the `new` field is named
`newVal` here because `new` is reserved).  Like the filter rules, the
object is duck-typed, so `orig` and `new` may be absent (`undefined`). -/
structure ReplaceRule where
  orig : Option JsVal
  newVal : Option JsVal
  row : Sel
  col : Sel

/-- JavaScript `ToString` on the replacement value handed to
`String.prototype.replace`: strings pass through, `undefined` prints as
`"undefined"`, booleans as `"true"`/`"false"`, and numbers via the host
double formatter. -/
def jsToString (host : HostEnv) : Option JsVal → String
  | none => "undefined"
  | some (.str s) => s
  | some (.num q) => host.numberToString q
  | some (.bool b) => if b then "true" else "false"

/-- ECMAScript `GetSubstitution` for the call sites below, where the
match is the whole subject string at position 0 (so the portions before
and after the match are empty) and there are no capture groups:
`$$` yields `$`; `$&` yields the matched string; `$` followed by the
backquote (code 96) or the apostrophe (code 39) yields the empty
before/after portion; any other `$`-sequence — including `$n`, since
there are no capture groups — is literal. -/
def getSubstitution (matched : String) : List Char → String
  | [] => ""
  | '$' :: c :: rest =>
      if c = '$' then "$" ++ getSubstitution matched rest
      else if c = '&' then matched ++ getSubstitution matched rest
      else if c = Char.ofNat 96 then getSubstitution matched rest
      else if c = Char.ofNat 39 then getSubstitution matched rest
      else "$" ++ getSubstitution matched (c :: rest)
  | c :: rest => String.mk [c] ++ getSubstitution matched rest

/-- One of the closures built by `str_ops.replace`: skip the cell when
the row scope and then the column scope exclude it; otherwise, when
`rule.orig === target`, return `target.replace(rule.orig, rule.new)`.
Because `orig` is strictly equal to the whole string, the replace finds
its match at position 0 spanning the entire string, so the result is the
`GetSubstitution` of the ToString-coerced replacement value.  A
non-string cell strictly equal to `orig` makes the source call
`.replace` on a number or boolean, which throws a `TypeError`. -/
def replaceCellFunc (host : HostEnv) (rule : ReplaceRule) (target : JsVal)
    (rowIndex colIndex : Nat) : Except Unit JsVal :=
  let rowSkip :=
    match prepareListOfIndices rule.row with
    | some rows1 => !(rows1.contains rowIndex)
    | none => false
  let colSkip :=
    match prepareListOfIndices rule.col with
    | some cols1 => !(cols1.contains colIndex)
    | none => false
  if rowSkip then .ok target
  else if colSkip then .ok target
  else if rule.orig == some target then
    match target with
    | .str s => .ok (.str (getSubstitution s (jsToString host rule.newVal).data))
    | _ => .error ()
  else .ok target

/-- `str_ops.replace`'s `runReplaceFuncs`: fold every rule's replace
function, in rule order, over one cell. -/
def runReplaceFuncs (host : HostEnv) (params : List ReplaceRule) (target : JsVal)
    (rowIndex colIndex : Nat) : Except Unit JsVal :=
  params.foldlM (fun t rule => replaceCellFunc host rule t rowIndex colIndex) target

/-- `str_ops.replace`: run the combined replace function over every cell
of the table, row-major; a thrown `TypeError` aborts the operation. -/
def replaceOp (host : HostEnv) (targetRows : Table) (params : List ReplaceRule) :
    Except Unit Table :=
  targetRows.enum.mapM (fun rp =>
    rp.2.enum.mapM (fun cp => runReplaceFuncs host params cp.2 rp.1 cp.1))

/-- The `interpretStr` parameter object: `{numbers?, bools?, dates?,
row?, col?}`. -/
structure InterpretRule where
  numbers : Bool
  bools : Option (JsVal × JsVal)
  dates : Option String
  row : Sel
  col : Sel

/-- One cell of `str_ops.interpretStr`: the interpret functions are
applied in push order — dates, then booleans, then numbers.

* Dates: `moment(cell, params.dates)` — the host `dateParse`.
* Booleans: strict comparison against `falseVal` first, then `trueVal`.
* Numbers: the host `parseNumber` round-trip on a string cell.  A
  non-string cell is always left unchanged: `toString()` yields a
  string, which is never strictly equal (`===`) to a number or boolean
  cell, so neither round-trip test can succeed on it. -/
def interpretValue (host : HostEnv) (params : InterpretRule) (cell : JsVal) : JsVal :=
  let afterDates :=
    match params.dates with
    | none => cell
    | some fmt =>
        match host.dateParse cell fmt with
        | some iso => .str iso
        | none => cell
  let afterBools :=
    match params.bools with
    | none => afterDates
    | some (trueVal, falseVal) =>
        if afterDates == falseVal then .bool false
        else if afterDates == trueVal then .bool true
        else afterDates
  if params.numbers then
    match afterBools with
    | .str s =>
        match host.parseNumber s with
        | some q => .num q
        | none => afterBools
    | _ => afterBools
  else
    afterBools

/-- `str_ops.interpretStr`: interpret every cell whose row and column are
in the rule's scope; rows out of scope are copied unchanged. -/
def interpretStr (host : HostEnv) (targetRows : Table) (params : InterpretRule) : Table :=
  let rows1 := prepareListOfIndices params.row
  let cols1 := prepareListOfIndices params.col
  targetRows.enum.map (fun rp =>
    match rows1 with
    | some rs =>
        if rs.contains rp.1 then
          rp.2.enum.map (fun cp =>
            match cols1 with
            | some cs =>
                if cs.contains cp.1 then interpretValue host params cp.2 else cp.2
            | none => interpretValue host params cp.2)
        else rp.2
    | none =>
        rp.2.enum.map (fun cp =>
          match cols1 with
          | some cs =>
              if cs.contains cp.1 then interpretValue host params cp.2 else cp.2
          | none => interpretValue host params cp.2))

/-- `structure_ops.transpose` (shipped at the tail of the library
source): allocate one output row per input column up to the maximum row
length (`findMaxNumCols`), then push each in-bounds cell of each input
row onto the output row of its column — an input row shorter than a
column index contributes nothing there, so ragged rows are skipped, not
padded. -/
def transpose (targetRows : Table) : Table :=
  (List.range (findMaxNumCols targetRows)).map (fun colIndex =>
    targetRows.filterMap (fun row => row.get? colIndex))

/-- The parameter payload of one operation, as the caller shapes it: an
array of rule objects, an array of replace objects, a single
`interpretStr` object, or nothing.  The objects are duck-typed, so array
payloads are legible to any strategy that iterates an array. -/
inductive OpParam where
  | rules (rs : List Rule)
  | replaces (rs : List ReplaceRule)
  | interpret (r : InterpretRule)
  | noParam

/-- A replace object read as a filter rule: it has no `index`, `val` or
`allOf` fields, while its `row`/`col` selectors are visible. -/
def ReplaceRule.asRule (r : ReplaceRule) : Rule :=
  .mk none r.col r.row none none

/-- A filter rule object read as a replace rule: it has no `orig` or
`new` fields, while its `row`/`col` selectors are visible. -/
def Rule.asReplaceRule (r : Rule) : ReplaceRule :=
  ⟨none, none, r.row, r.col⟩

/-- An array read as the `interpretStr` parameter object: the property
reads `params.dates`, `params.bools`, `params.numbers`, `params.row` and
`params.col` on an array are all `undefined`. -/
def arrayAsInterpretRule : InterpretRule :=
  ⟨false, none, none, .undef, .undef⟩

/-- One entry of the operation list handed to `refine`: `{operation,
param}`. -/
structure Operation where
  operation : String
  param : OpParam

/-- The outcome of running one operation, or of a whole `refine` call:
either the success callback is invoked with a table, or the error channel
(`onError`, defaulting to `genericErrorHandler`, which raises) receives a
description string, or an exception escapes uncaught. -/
inductive RefineOutcome where
  | success (t : Table)
  | errorCall (err : String)
  | thrown
deriving DecidableEq

/-- The keys of the `refineStrategies` dispatch object. -/
def refineStrategyNames : List String :=
  ["ignoreRowIf", "ignoreColIf", "replace", "interpretStr", "transpose"]

/-- `executeOperation`: look the operation name up in `refineStrategies`
and invoke the strategy.  A name that is not a key of the object yields
`undefined`, and `strategy(targetRows, ...)` then throws a `TypeError` —
no check precedes the call, so the error channel is never consulted.

Because the parameter objects are duck-typed, a strategy given an array
of the other array shape still runs: the filters see no
`index`/`val`/`allOf` fields in replace objects (and so keep every row
and drop no column), `replace` sees no `orig` in filter rules (and so
changes no cell), and `interpretStr` reads only `undefined` properties
off an array (and so copies the table).  A strategy expecting an array
but given a single object or `undefined` throws (`params.filter` /
`params.map` is not a function), as does `interpretStr` given
`undefined` (reading `params.dates` of `undefined`). -/
def executeOperation (host : HostEnv) (op : Operation) (targetRows : Table) :
    RefineOutcome :=
  if op.operation == "ignoreRowIf" then
    match op.param with
    | .rules rs =>
        match ignoreRowIf targetRows rs with
        | .ok t => .success t
        | .error _ => .thrown
    | .replaces rs =>
        match ignoreRowIf targetRows (rs.map ReplaceRule.asRule) with
        | .ok t => .success t
        | .error _ => .thrown
    | _ => .thrown
  else if op.operation == "ignoreColIf" then
    match op.param with
    | .rules rs =>
        match ignoreColIf targetRows rs with
        | .ok t => .success t
        | .error _ => .thrown
    | .replaces rs =>
        match ignoreColIf targetRows (rs.map ReplaceRule.asRule) with
        | .ok t => .success t
        | .error _ => .thrown
    | _ => .thrown
  else if op.operation == "replace" then
    match op.param with
    | .replaces rs =>
        match replaceOp host targetRows rs with
        | .ok t => .success t
        | .error _ => .thrown
    | .rules rs =>
        match replaceOp host targetRows (rs.map Rule.asReplaceRule) with
        | .ok t => .success t
        | .error _ => .thrown
    | _ => .thrown
  else if op.operation == "interpretStr" then
    match op.param with
    | .interpret r => .success (interpretStr host targetRows r)
    | .rules _ => .success (interpretStr host targetRows arrayAsInterpretRule)
    | .replaces _ => .success (interpretStr host targetRows arrayAsInterpretRule)
    | .noParam => .thrown
  else if op.operation == "transpose" then
    .success (transpose targetRows)
  else
    .thrown

/-- `refine`'s `async.reduce` loop: each operation's output table feeds
the next operation; a `callback(err)` from an operation reaches `onError`
and skips the remaining operations; an uncaught exception aborts
everything; only when every operation succeeds is the success callback
invoked with the final table. -/
def refineGo (host : HostEnv) (operations : List Operation) (targetRows : Table) :
    RefineOutcome :=
  match operations with
  | [] => .success targetRows
  | op :: rest =>
      match executeOperation host op targetRows with
      | .success t => refineGo host rest t
      | .errorCall e => .errorCall e
      | .thrown => .thrown

/-- `refine` over an operation list (a single operation is wrapped into a
one-element list by the source before this loop runs). -/
def refine (host : HostEnv) (operations : List Operation) (targetRows : Table) :
    RefineOutcome :=
  refineGo host operations targetRows

instance {ε α : Type} [DecidableEq ε] [DecidableEq α] : DecidableEq (Except ε α) := fun a b =>
  match a, b with
  | .error e, .error e' => decidable_of_iff (e = e') (by simp)
  | .ok x, .ok y => decidable_of_iff (x = y) (by simp)
  | .error _, .ok _ => isFalse (by simp)
  | .ok _, .error _ => isFalse (by simp)

/-! ## Helper lemmas -/

theorem shouldKeep_and_eq_all (l : List Bool) :
    RuleCombiner.shouldKeep true l = l.all id := by
  induction l with
  | nil => rfl
  | cons x xs ih =>
      cases x <;> simp [RuleCombiner.shouldKeep, List.all_cons, id] at ih ⊢ <;>
        simpa [RuleCombiner.shouldKeep] using ih

theorem shouldKeep_or_eq_any (l : List Bool) :
    RuleCombiner.shouldKeep false l = l.any id := by
  induction l with
  | nil => rfl
  | cons x xs ih =>
      cases x <;> simp [RuleCombiner.shouldKeep, List.any_cons, id] at ih ⊢ <;>
        simpa [RuleCombiner.shouldKeep] using ih

theorem createKeepIndexChecker_no_index (rules : List Rule)
    (h : ∀ r ∈ rules, r.index = none) :
    createKeepIndexChecker rules = .ok ⟨0, [], []⟩ := by
  have hfil : rules.filter (fun r => r.index.isSome) = [] := by
    rw [List.filter_eq_nil_iff]
    intro a ha
    simp [h a ha]
  simp [createKeepIndexChecker, hfil]
  rfl

theorem applyKeepIndexChecker_trivial (i : Int) :
    applyKeepIndexChecker ⟨0, [], []⟩ i = .ok true := rfl

theorem combinedVotes_no_groups (rules : List Rule) (row : List JsVal) (i : Nat)
    (h : ∀ r ∈ rules, r.allOf = none) :
    combinedVotes rules row i = .ok [] := by
  induction rules with
  | nil => simp [combinedVotes]
  | cons r rest ih =>
      cases r with
      | mk idx c rw v ao =>
          have hr : ao = none := h _ (List.mem_cons_self _ _)
          subst hr
          rw [combinedVotes]
          exact ih (fun r hr => h r (List.mem_cons_of_mem _ hr))

/-- `createRowKeepFunc` on a list of pure value rules: the index checker
is trivial, there are no nested groups, and the decision is the combiner
applied to the per-rule value keep-votes. -/
theorem createRowKeepFunc_value_rules (rules : List Rule) (b : Bool)
    (row : List JsVal) (i : Nat)
    (h : ∀ r ∈ rules, r.index = none ∧ r.allOf = none ∧ r.val.isSome) :
    createRowKeepFunc rules b row i
      = .ok (RuleCombiner.shouldKeep b (rules.map (fun r => keepRowValFunc r row i))) := by
  have hidx : createKeepIndexChecker rules = .ok ⟨0, [], []⟩ :=
    createKeepIndexChecker_no_index rules (fun r hr => (h r hr).1)
  have hcv : combinedVotes rules row i = .ok [] :=
    combinedVotes_no_groups rules row i (fun r hr => (h r hr).2.1)
  have hfili : rules.filter (fun r => r.index.isSome) = [] := by
    rw [List.filter_eq_nil_iff]
    intro a ha
    simp [(h a ha).1]
  have hfilv : rules.filter (fun r => r.val.isSome) = rules :=
    List.filter_eq_self.2 (fun a ha => by simpa using (h a ha).2.2)
  rw [createRowKeepFunc, hidx, hcv, hfili, hfilv]
  simp [createKeepRowValFuncs]
  rfl

/-- The row loop of `ignoreRowIf` under a uniform description `f` of the
per-row keep decision: it filters the enumerated rows by `f`. -/
theorem ignoreRowIfGo_filter (params : List Rule) (f : List JsVal → Nat → Bool)
    (hf : ∀ row i, createRowKeepFunc params true row i = .ok (f row i)) :
    ∀ (rows : Table) (n : Nat),
      ignoreRowIfGo params rows n
        = .ok (((rows.enumFrom n).filter (fun p => f p.2 p.1)).map (fun p => p.2)) := by
  intro rows
  induction rows with
  | nil => intro n; simp [ignoreRowIfGo]
  | cons r rest ih =>
      intro n
      rw [ignoreRowIfGo]
      rw [hf r n, ih (n + 1)]
      cases hfr : f r n
      · simp only [List.enumFrom, List.filter_cons, hfr]
        rfl
      · simp only [List.enumFrom, List.filter_cons, hfr]
        rfl

/-! ## C1 -/

/-- C1: for every finite sequence of boolean clause results reported to a
`RuleCombiner`, `shouldKeep` returns: in AND mode (`combineWithAnd =
true`), `true` iff no reported result is `false`; in OR mode, `true` iff
at least one reported result is `true`; and in both modes the decision is
invariant under permutation of the reported sequence. -/
theorem c1_rule_combiner_law (b : Bool) (l l' : List Bool) (h : l.Perm l') :
    (RuleCombiner.shouldKeep true l = true ↔ ∀ x ∈ l, x = true)
    ∧ (RuleCombiner.shouldKeep false l = true ↔ ∃ x ∈ l, x = true)
    ∧ RuleCombiner.shouldKeep b l = RuleCombiner.shouldKeep b l' := by
  refine ⟨?_, ?_, ?_⟩
  · rw [shouldKeep_and_eq_all]
    simp [List.all_eq_true, id]
  · rw [shouldKeep_or_eq_any]
    simp [List.any_eq_true, id]
  · cases b
    · rw [shouldKeep_or_eq_any, shouldKeep_or_eq_any]
      rw [Bool.eq_iff_iff]
      simp only [List.any_eq_true]
      constructor
      · rintro ⟨x, hx, hid⟩; exact ⟨x, h.mem_iff.1 hx, hid⟩
      · rintro ⟨x, hx, hid⟩; exact ⟨x, h.mem_iff.2 hx, hid⟩
    · rw [shouldKeep_and_eq_all, shouldKeep_and_eq_all]
      rw [Bool.eq_iff_iff]
      simp only [List.all_eq_true]
      constructor
      · intro hall x hx; exact hall x (h.mem_iff.2 hx)
      · intro hall x hx; exact hall x (h.mem_iff.1 hx)

/-- Witness for C1 at `b = true`, `l = [true, false]`,
`l' = [false, true]`. -/
theorem c1_rule_combiner_law_witness :
    (RuleCombiner.shouldKeep true [true, false] = true ↔ ∀ x ∈ [true, false], x = true)
    ∧ (RuleCombiner.shouldKeep false [true, false] = true ↔ ∃ x ∈ [true, false], x = true)
    ∧ RuleCombiner.shouldKeep true [true, false]
        = RuleCombiner.shouldKeep true [false, true] :=
  c1_rule_combiner_law true [true, false] [false, true] (by decide)

/-! ## C10 -/

/-- C10: a rule list consisting of one `allOf` group with an empty nested
rule list removes every row (the group's OR-mode combiner, with no
reported clauses, votes not-keep for every row), whereas an entirely
empty top-level rule list keeps every row. -/
theorem c10_empty_group_removes_all (t : Table) :
    ignoreRowIf t [Rule.mk none .undef .undef none (some [])] = .ok []
    ∧ ignoreRowIf t [] = .ok t := by
  constructor
  · have hrow : ∀ (row : List JsVal) (i : Nat),
        createRowKeepFunc [Rule.mk none .undef .undef none (some [])] true row i
          = .ok false := by
      intro row i
      simp [createRowKeepFunc, combinedVotes, createKeepIndexChecker,
        createKeepRowValFuncs, RuleCombiner.shouldKeep]
      rfl
    rw [ignoreRowIf, ignoreRowIfGo_filter _ (fun _ _ => false) hrow t 0]
    simp
  · have hrow : ∀ (row : List JsVal) (i : Nat),
        createRowKeepFunc [] true row i = .ok true := by
      intro row i
      simp [createRowKeepFunc, combinedVotes, createKeepIndexChecker,
        createKeepRowValFuncs, RuleCombiner.shouldKeep]
      rfl
    rw [ignoreRowIf, ignoreRowIfGo_filter _ (fun _ _ => true) hrow t 0]
    simp [List.enumFrom_map_snd]

theorem all_map_id (l : List α) (f : α → Bool) : (l.map f).all id = l.all f := by
  induction l with
  | nil => rfl
  | cons x xs ih => simp [List.all_cons, ih, id]

theorem any_map_id (l : List α) (f : α → Bool) : (l.map f).any id = l.any f := by
  induction l with
  | nil => rfl
  | cons x xs ih => simp [List.any_cons, ih, id]

/-! ## C3 -/

/-- C3: for a top-level rule list of value rules whose matched row sets
are pairwise disjoint, `ignoreRowIf` removes a row iff the row matches at
least one of the rules (its keep-vote is `false`), and keeps every row
matching none, preserving the original order and contents of the kept
rows; in particular, on `[[A,x],[B,x],[C,x]]` with rules `[{col:0,val:A}]`
the output is `[[B,x],[C,x]]`. -/
theorem c3_row_filter_top_level_law :
    (∀ (t : Table) (params : List Rule),
      (∀ r ∈ params, r.index = none ∧ r.allOf = none ∧ r.val.isSome) →
      params.Pairwise (fun r₁ r₂ => ∀ row ∈ t,
        ¬(keepRowValFunc r₁ row 0 = false ∧ keepRowValFunc r₂ row 0 = false)) →
      ignoreRowIf t params
        = .ok ((t.enum.filter
            (fun p => params.all (fun r => keepRowValFunc r p.2 p.1))).map (fun p => p.2)))
    ∧ ignoreRowIf
        [[.str "A", .str "x"], [.str "B", .str "x"], [.str "C", .str "x"]]
        [Rule.mk none (.one 0) .undef (some (.str "A")) none]
        = .ok [[.str "B", .str "x"], [.str "C", .str "x"]] := by
  constructor
  · intro t params h _hdisj
    have hrow : ∀ (row : List JsVal) (i : Nat),
        createRowKeepFunc params true row i
          = .ok (params.all (fun r => keepRowValFunc r row i)) := by
      intro row i
      rw [createRowKeepFunc_value_rules params true row i h, shouldKeep_and_eq_all,
        all_map_id]
    rw [ignoreRowIf,
      ignoreRowIfGo_filter params (fun row i => params.all (fun r => keepRowValFunc r row i))
        hrow t 0]
    rfl
  · simp [ignoreRowIf, ignoreRowIfGo, createRowKeepFunc, combinedVotes,
      createKeepIndexChecker, createKeepRowValFuncs, keepRowValFunc,
      prepareListOfIndices, RuleCombiner.shouldKeep, Rule.index, Rule.val,
      Rule.col, Rule.allOf]
    rfl

/-- Witness for C3 at the spec's own example. -/
theorem c3_row_filter_top_level_law_witness :
    ignoreRowIf
      [[.str "A", .str "x"], [.str "B", .str "x"], [.str "C", .str "x"]]
      [Rule.mk none (.one 0) .undef (some (.str "A")) none]
      = .ok ((([[JsVal.str "A", .str "x"], [.str "B", .str "x"],
            [.str "C", .str "x"]] : Table).enum.filter
          (fun p => [Rule.mk none (.one 0) .undef (some (.str "A")) none].all
            (fun r => keepRowValFunc r p.2 p.1))).map (fun p => p.2)) :=
  c3_row_filter_top_level_law.1
    [[.str "A", .str "x"], [.str "B", .str "x"], [.str "C", .str "x"]]
    [Rule.mk none (.one 0) .undef (some (.str "A")) none]
    (by simp [List.forall_mem_cons, Rule.index, Rule.allOf, Rule.val])
    (List.pairwise_singleton _ _)

/-! ## C4 -/

/-- C4: for a rule list containing a nested `allOf` group of value rules,
the group's keep decision (the recursive OR-mode `createRowKeepFunc` over
its sub-rules) votes not-keep exactly when every sub-rule matches the row
(all sub keep-votes are `false`); if at least one sub-rule does not match
the row, the group votes to keep it. -/
theorem c4_allof_and_law (rules : List Rule) (g : Rule) (subs : List Rule)
    (row : List JsVal) (i : Nat)
    (_hmem : g ∈ rules) (_hg : g.allOf = some subs)
    (h : ∀ r ∈ subs, r.index = none ∧ r.allOf = none ∧ r.val.isSome) :
    createRowKeepFunc subs false row i
      = .ok (subs.any (fun s => keepRowValFunc s row i))
    ∧ (createRowKeepFunc subs false row i = .ok false
        ↔ ∀ s ∈ subs, keepRowValFunc s row i = false)
    ∧ ((∃ s ∈ subs, keepRowValFunc s row i = true)
        → createRowKeepFunc subs false row i = .ok true) := by
  have h1 : createRowKeepFunc subs false row i
      = .ok (subs.any (fun s => keepRowValFunc s row i)) := by
    rw [createRowKeepFunc_value_rules subs false row i h, shouldKeep_or_eq_any,
      any_map_id]
  refine ⟨h1, ?_, ?_⟩
  · rw [h1]
    simp [List.any_eq_false]
  · rintro ⟨s, hs, hks⟩
    rw [h1]
    have : subs.any (fun s => keepRowValFunc s row i) = true :=
      List.any_eq_true.2 ⟨s, hs, hks⟩
    rw [this]

/-- Witness for C4: a group `allOf [{col:0,val:T1},{col:2,val:T2}]` on a
row where only the first condition holds votes keep. -/
theorem c4_allof_and_law_witness :
    createRowKeepFunc
      [Rule.mk none (.one 0) .undef (some (.str "T1")) none,
       Rule.mk none (.one 2) .undef (some (.str "T2")) none] false
      [.str "T1", .str "x", .str "z"] 0
      = .ok true :=
  (c4_allof_and_law
    [Rule.mk none .undef .undef none
      (some [Rule.mk none (.one 0) .undef (some (.str "T1")) none,
             Rule.mk none (.one 2) .undef (some (.str "T2")) none])]
    (Rule.mk none .undef .undef none
      (some [Rule.mk none (.one 0) .undef (some (.str "T1")) none,
             Rule.mk none (.one 2) .undef (some (.str "T2")) none]))
    [Rule.mk none (.one 0) .undef (some (.str "T1")) none,
     Rule.mk none (.one 2) .undef (some (.str "T2")) none]
    [.str "T1", .str "x", .str "z"] 0
    (List.mem_singleton_self _) rfl
    (by simp [List.forall_mem_cons, Rule.index, Rule.allOf, Rule.val])).2.2
    ⟨Rule.mk none (.one 2) .undef (some (.str "T2")) none,
     List.mem_cons_of_mem _ (List.mem_singleton_self _), rfl⟩

/-! ## C2 -/

theorem createKeepIndexChecker_numIndexRules (params : List Rule) (ch : KeepIndexChecker)
    (hch : createKeepIndexChecker params = .ok ch) :
    ch.numIndexRules = (params.filter (fun r => r.index.isSome)).length := by
  simp only [createKeepIndexChecker] at hch
  cases hfold : (params.filter (fun r => r.index.isSome)).foldlM keepIndexStep ([], []) with
  | error e =>
      rw [hfold] at hch
      exact absurd hch (by simp)
  | ok acc =>
      rw [hfold] at hch
      cases hch
      rfl

theorem valueVotes_eq (rules : List Rule) (row : List JsVal) (i : Nat) :
    (createKeepRowValFuncs rules).map (fun f => f row i)
      = rules.map (fun r => keepRowValFunc r row i) := by
  simp [createKeepRowValFuncs]

/-- C2 (amended): the top-level combination of `ignoreRowIf` is AND-mode
over keep-votes — `shouldKeep(row, rowIndex) = true` iff the index
predicate and every value predicate and every nested-group predicate each
voted `true`; equivalently, a single predicate voting `false` (remove)
suffices for the row to be removed. -/
theorem c2_top_level_and_law (params : List Rule) (row : List JsVal) (i : Nat)
    (ch : KeepIndexChecker) (idxVote : Bool) (groupVotes : List Bool)
    (hch : createKeepIndexChecker params = .ok ch)
    (hid : applyKeepIndexChecker ch i = .ok idxVote)
    (hcv : combinedVotes params row i = .ok groupVotes) :
    createRowKeepFunc params true row i
      = .ok (idxVote
          && (params.filter (fun r => r.val.isSome)).all (fun r => keepRowValFunc r row i)
          && groupVotes.all id)
    ∧ (createRowKeepFunc params true row i = .ok true ↔
        (idxVote = true
          ∧ (∀ r ∈ params.filter (fun r => r.val.isSome), keepRowValFunc r row i = true)
          ∧ ∀ v ∈ groupVotes, v = true)) := by
  have main : createRowKeepFunc params true row i
      = .ok (idxVote
          && (params.filter (fun r => r.val.isSome)).all (fun r => keepRowValFunc r row i)
          && groupVotes.all id) := by
    rw [createRowKeepFunc]
    rw [hch, hcv]
    cases hfil : params.filter (fun r => r.index.isSome) with
    | nil =>
        have hnum : ch.numIndexRules = 0 := by
          rw [createKeepIndexChecker_numIndexRules params ch hch, hfil]
          rfl
        have hidx : idxVote = true := by
          have : applyKeepIndexChecker ch i = .ok true := by
            rw [applyKeepIndexChecker, hnum]
            rfl
          rw [this] at hid
          exact (Except.ok.inj hid).symm
        subst hidx
        simp only [hfil, List.length_nil, gt_iff_lt, Nat.lt_irrefl, decide_False,
          Bool.not_false, if_true, Bool.true_and]
        rw [shouldKeep_and_eq_all, List.all_append, valueVotes_eq, all_map_id]
    | cons hd tl =>
        simp only [hfil, List.length_cons, gt_iff_lt, Nat.succ_pos, decide_True,
          Bool.not_true, Bool.false_eq_true, if_false]
        cases hval : params.filter (fun r => r.val.isSome) with
        | nil =>
            cases groupVotes with
            | nil =>
                simp only [createKeepRowValFuncs, List.map_nil, List.append_nil,
                  List.length_nil]
                rw [hid]
                simp
            | cons v vs =>
                simp only [createKeepRowValFuncs, List.map_nil, List.nil_append]
                rw [if_neg (by simp)]
                rw [hid]
                show Except.ok (RuleCombiner.shouldKeep true (idxVote :: v :: vs)) = _
                rw [shouldKeep_and_eq_all]
                simp [List.all_cons, id]
        | cons vr vrs =>
            have hne : ((createKeepRowValFuncs (vr :: vrs)).map (fun f => f row i)
                ++ groupVotes).length ≠ 0 := by
              simp [createKeepRowValFuncs]
            simp only [List.length_eq_zero] at hne
            simp only [beq_iff_eq]
            rw [if_neg (by simpa using hne)]
            rw [hid]
            show Except.ok (RuleCombiner.shouldKeep true
              (idxVote :: ((createKeepRowValFuncs (vr :: vrs)).map (fun f => f row i)
                ++ groupVotes))) = _
            rw [shouldKeep_and_eq_all]
            have : ((createKeepRowValFuncs (vr :: vrs)).map (fun f => f row i)
                ++ groupVotes).all id
                = ((vr :: vrs).all (fun r => keepRowValFunc r row i) && groupVotes.all id) := by
              rw [List.all_append, valueVotes_eq, all_map_id]
            simp only [List.all_cons, id, Bool.and_assoc] at this ⊢
            rw [this]
  refine ⟨main, ?_⟩
  rw [main]
  constructor
  · intro hok
    have := Except.ok.inj hok
    simp only [Bool.and_eq_true, List.all_eq_true, id] at this
    exact ⟨this.1.1, this.1.2, this.2⟩
  · rintro ⟨h1, h2, h3⟩
    subst h1
    simp only [Bool.true_and]
    have hv : (params.filter (fun r => r.val.isSome)).all
        (fun r => keepRowValFunc r row i) = true := List.all_eq_true.2 h2
    have hg : groupVotes.all id = true := List.all_eq_true.2 (fun v hv => h3 v hv)
    rw [hv, hg]
    rfl

/-- C2 counterexample: with the top-level rules
`[{col:0,val:"A"}, {col:0,val:"B"}]` on the row `["A"]` at index 0, the
second value predicate votes keep (`true`), yet the row is removed — so a
single predicate voting `true` does not suffice to keep the row, refuting
the claimed OR-mode top-level law. -/
theorem c2_counterexample :
    keepRowValFunc (Rule.mk none (.one 0) .undef (some (.str "B")) none) [.str "A"] 0 = true
    ∧ createRowKeepFunc
        [Rule.mk none (.one 0) .undef (some (.str "A")) none,
         Rule.mk none (.one 0) .undef (some (.str "B")) none] true [.str "A"] 0
        = .ok false
    ∧ ignoreRowIf [[.str "A"]]
        [Rule.mk none (.one 0) .undef (some (.str "A")) none,
         Rule.mk none (.one 0) .undef (some (.str "B")) none]
        = .ok [] := by
  refine ⟨rfl, ?_, ?_⟩
  · simp [createRowKeepFunc, combinedVotes, createKeepIndexChecker,
      createKeepRowValFuncs, keepRowValFunc, prepareListOfIndices,
      RuleCombiner.shouldKeep, Rule.index, Rule.val, Rule.col, Rule.allOf]
    rfl
  · simp [ignoreRowIf, ignoreRowIfGo, createRowKeepFunc, combinedVotes,
      createKeepIndexChecker, createKeepRowValFuncs, keepRowValFunc,
      prepareListOfIndices, RuleCombiner.shouldKeep, Rule.index, Rule.val,
      Rule.col, Rule.allOf]
    rfl

/-- Witness for C2 (amended) at the counterexample's input. -/
theorem c2_top_level_and_law_witness :
    createRowKeepFunc
      [Rule.mk none (.one 0) .undef (some (.str "A")) none,
       Rule.mk none (.one 0) .undef (some (.str "B")) none] true [.str "A"] 0
      = .ok (true
          && (([Rule.mk none (.one 0) .undef (some (.str "A")) none,
                Rule.mk none (.one 0) .undef (some (.str "B")) none] : List Rule).filter
              (fun r => r.val.isSome)).all
            (fun r => keepRowValFunc r [.str "A"] 0)
          && ([] : List Bool).all id) :=
  (c2_top_level_and_law
    [Rule.mk none (.one 0) .undef (some (.str "A")) none,
     Rule.mk none (.one 0) .undef (some (.str "B")) none]
    [.str "A"] 0 ⟨0, [], []⟩ true []
    rfl rfl (by simp [combinedVotes, Rule.allOf])).1

/-! ## C6 -/

/-- C6 counterexample: the `allOf` group
`[{index:0}, {col:0,val:"A"}]` evaluated on row `["B"]` at row index 0:
the group's index predicate votes not-keep (`false`), yet the group's
decision is keep (`true`) because the value predicate's keep-vote is
combined with the index vote — the decision is not driven by the index
predicate alone. -/
theorem c6_counterexample :
    createKeepIndexChecker
        [Rule.mk (some (.one 0)) .undef .undef none none,
         Rule.mk none (.one 0) .undef (some (.str "A")) none] = .ok ⟨1, [0], []⟩
    ∧ applyKeepIndexChecker ⟨1, [0], []⟩ 0 = .ok false
    ∧ createRowKeepFunc
        [Rule.mk (some (.one 0)) .undef .undef none none,
         Rule.mk none (.one 0) .undef (some (.str "A")) none] false [.str "B"] 0
        = .ok true := by
  refine ⟨rfl, rfl, ?_⟩
  simp [createRowKeepFunc, combinedVotes, createKeepIndexChecker, keepIndexStep,
    applyKeepIndexChecker, createKeepRowValFuncs, keepRowValFunc, prepareListOfIndices,
    RuleCombiner.shouldKeep, Rule.index, Rule.val, Rule.col, Rule.allOf]

/-- C6 (amended): in an `allOf` group containing at least one index rule,
the group's decision is the index predicate alone only when the group has
no value predicates and no nested groups; otherwise the index predicate's
vote is one clause among the value and nested keep-votes, combined under
the group's OR-mode law (the group keeps iff at least one vote is
`true`). -/
theorem c6_group_index_combination (subs : List Rule) (row : List JsVal) (i : Nat)
    (ch : KeepIndexChecker) (idxVote : Bool) (groupVotes : List Bool)
    (hindex : (subs.filter (fun r => r.index.isSome)).length > 0)
    (hch : createKeepIndexChecker subs = .ok ch)
    (hid : applyKeepIndexChecker ch i = .ok idxVote)
    (hcv : combinedVotes subs row i = .ok groupVotes) :
    (subs.filter (fun r => r.val.isSome) = [] → groupVotes = [] →
        createRowKeepFunc subs false row i = .ok idxVote)
    ∧ ((subs.filter (fun r => r.val.isSome) ≠ [] ∨ groupVotes ≠ []) →
        createRowKeepFunc subs false row i
          = .ok (idxVote
              || (subs.filter (fun r => r.val.isSome)).any (fun r => keepRowValFunc r row i)
              || groupVotes.any id)) := by
  cases hfil : subs.filter (fun r => r.index.isSome) with
  | nil => rw [hfil] at hindex; exact absurd hindex (by simp)
  | cons hd tl =>
      constructor
      · intro hval hgv
        subst hgv
        rw [createRowKeepFunc]
        rw [hch, hcv, hfil, hval]
        simp only [createKeepRowValFuncs, List.map_nil, List.append_nil,
          List.length_cons, gt_iff_lt, Nat.succ_pos, decide_True, Bool.not_true,
          Bool.false_eq_true, if_false, List.length_nil]
        rw [hid]
        rfl
      · intro hne
        rw [createRowKeepFunc]
        rw [hch, hcv, hfil]
        simp only [List.length_cons, gt_iff_lt, Nat.succ_pos, decide_True,
          Bool.not_true, Bool.false_eq_true, if_false]
        have hlen : ((createKeepRowValFuncs (subs.filter (fun r => r.val.isSome))).map
            (fun f => f row i) ++ groupVotes).length ≠ 0 := by
          rcases hne with hv | hg
          · cases hfv : subs.filter (fun r => r.val.isSome) with
            | nil => exact absurd hfv hv
            | cons a as => simp [createKeepRowValFuncs, hfv]
          · cases groupVotes with
            | nil => exact absurd rfl hg
            | cons g gs => simp
        rw [if_neg (by simpa using hlen)]
        rw [hid]
        show Except.ok (RuleCombiner.shouldKeep false
          (idxVote :: ((createKeepRowValFuncs (subs.filter (fun r => r.val.isSome))).map
            (fun f => f row i) ++ groupVotes))) = _
        rw [shouldKeep_or_eq_any]
        simp only [List.any_cons, id]
        rw [List.any_append, valueVotes_eq, any_map_id]
        simp [Bool.or_assoc]

/-- Witness for C6 (amended) at the counterexample's group and row. -/
theorem c6_group_index_combination_witness :
    createRowKeepFunc
      [Rule.mk (some (.one 0)) .undef .undef none none,
       Rule.mk none (.one 0) .undef (some (.str "A")) none] false [.str "B"] 0
      = .ok (false
          || (([Rule.mk (some (.one 0)) .undef .undef none none,
                Rule.mk none (.one 0) .undef (some (.str "A")) none] : List Rule).filter
              (fun r => r.val.isSome)).any (fun r => keepRowValFunc r [.str "B"] 0)
          || ([] : List Bool).any id) :=
  (c6_group_index_combination
    [Rule.mk (some (.one 0)) .undef .undef none none,
     Rule.mk none (.one 0) .undef (some (.str "A")) none]
    [.str "B"] 0 ⟨1, [0], []⟩ false []
    (by simp [Rule.index]) rfl rfl (by simp [combinedVotes, Rule.allOf])).2
    (Or.inl (by simp [Rule.val]))

/-! ## C5 -/

/-- C5 evaluation at the failing inputs: an equality-expression string
with an unsupported operator (`"@@3"`) throws a `TypeError` while the
index predicate is being built (the strategy lookup is invoked before the
`undefined` check), and a string shorter than three characters (`"<3"`)
returns `null`, which is stored and then invoked — throwing — when the
built predicate is applied to any index; neither degrades to a
never-matching evaluator. -/
theorem c5_malformed_expression_crashes :
    createEqualityEvaluator "@@3" = .error ()
    ∧ createKeepIndexChecker [Rule.mk (some (.expr "@@3")) .undef .undef none none]
        = .error ()
    ∧ createEqualityEvaluator "<3" = .ok none
    ∧ (createKeepIndexChecker [Rule.mk (some (.expr "<3")) .undef .undef none none]).bind
        (fun c => applyKeepIndexChecker c 5) = .error ()
    ∧ ignoreRowIf [[.str "A"]] [Rule.mk (some (.expr "@@3")) .undef .undef none none]
        = .error () := by
  refine ⟨rfl, rfl, rfl, rfl, ?_⟩
  simp [ignoreRowIf, ignoreRowIfGo, createRowKeepFunc, combinedVotes,
    createKeepIndexChecker, keepIndexStep, createEqualityEvaluator,
    equalityStrategies, createKeepRowValFuncs, Rule.index, Rule.val, Rule.allOf]
  rfl

/-! ## C7 -/

/-- C7 evaluation: the guarded value-rule paths tolerate out-of-range
selectors — a row-filter value rule with column index 5 on a width-1 table
keeps everything, and a column-filter value rule with row index 5 on a
height-1 table drops nothing — but a value rule with an out-of-range
concrete row index inside an `ignoreColIf` `allOf` group throws
(`findColsByCombinedVals` maps selected indices to rows without the
bounds filter that `findColsByVal` applies, and then reads `.length` of
`undefined`). -/
theorem c7_out_of_range_eval :
    ignoreColIf [[.str "A"]]
        [Rule.mk none .undef .undef none
          (some [Rule.mk none .undef (.one 1) (some (.str "A")) none])]
        = .error ()
    ∧ ignoreColIf [[.str "A"]] [Rule.mk none .undef (.one 5) (some (.str "A")) none]
        = .ok [[.str "A"]]
    ∧ ignoreRowIf [[.str "A"]] [Rule.mk none (.one 5) .undef (some (.str "A")) none]
        = .ok [[.str "A"]] := by
  refine ⟨rfl, rfl, ?_⟩
  simp [ignoreRowIf, ignoreRowIfGo, createRowKeepFunc, combinedVotes,
    createKeepIndexChecker, createKeepRowValFuncs, keepRowValFunc,
    prepareListOfIndices, RuleCombiner.shouldKeep, Rule.index, Rule.val,
    Rule.col, Rule.allOf]
  rfl

/-! ## C9 -/

/-- C9 evaluation: dispatching an operation whose name is not one of the
five recognized names invokes `undefined` as a function: the `refine`
call ends in an uncaught `TypeError` — the error channel (`onError`) is
never invoked with a descriptive message — no subsequent operation of
the list runs, and the success callback is never invoked. -/
theorem c9_unknown_operation_throws (host : HostEnv)
    (rest : List Operation) (t : Table) :
    refine host (⟨"bogus", .noParam⟩ :: rest) t = .thrown
    ∧ refine host (⟨"bogus", .noParam⟩ :: rest) t ≠ .errorCall "Unknown operation: bogus"
    ∧ (∀ t', refine host (⟨"bogus", .noParam⟩ :: rest) t ≠ .success t')
    ∧ refineStrategyNames.contains "bogus" = false := by
  refine ⟨rfl, ?_, ?_, rfl⟩
  · intro h
    exact RefineOutcome.noConfusion
      ((rfl : refine host (⟨"bogus", .noParam⟩ :: rest) t = .thrown).symm.trans h)
  · intro t' h
    exact RefineOutcome.noConfusion
      ((rfl : refine host (⟨"bogus", .noParam⟩ :: rest) t = .thrown).symm.trans h)

/-! ## C8 -/

theorem contains_congr_of_mem_iff (l₁ l₂ : List Nat)
    (h : ∀ i, i ∈ l₁ ↔ i ∈ l₂) (x : Nat) : l₁.contains x = l₂.contains x := by
  show l₁.elem x = l₂.elem x
  rw [List.elem_eq_mem, List.elem_eq_mem]
  rw [Bool.eq_iff_iff]
  simp only [decide_eq_true_eq]
  exact h x

/-- `removeCols` depends on the drop list only through membership: any two
drop lists with the same members — in particular a list and its
deduplication — produce the same output, so a column named twice is
removed once, not twice. -/
theorem removeCols_congr (t : Table) (d₁ d₂ : List Nat)
    (h : ∀ i, i ∈ d₁ ↔ i ∈ d₂) : removeCols t d₁ = removeCols t d₂ := by
  unfold removeCols
  apply List.map_congr_left
  intro row _
  have : ∀ p ∈ row.enum, (!(d₁.contains p.1)) = (!(d₂.contains p.1)) := by
    intro p _
    rw [contains_congr_of_mem_iff d₁ d₂ h p.1]
  rw [List.filter_congr this]

/-- C8: `ignoreColIf` builds its output by concatenating the index-based,
value-based and `allOf`-based drop lists and omitting exactly the member
column positions from every row; membership in the concatenation is the
union of the three memberships, and `removeCols` is invariant under any
reformulation of the drop list with the same members (deduplicated union
semantics — a column named by two different rule types is removed once,
not twice). -/
theorem c8_col_drop_union_law (t : Table) (params : List Rule) (a c : List Nat)
    (ha : colIndexDrops t params = .ok a)
    (hc : colCombinedDrops t params = .ok c) :
    ignoreColIf t params = .ok (removeCols t (a ++ colValDrops t params ++ c))
    ∧ (∀ i, i ∈ a ++ colValDrops t params ++ c
        ↔ (i ∈ a ∨ i ∈ colValDrops t params ∨ i ∈ c))
    ∧ (∀ d' : List Nat, (∀ i, i ∈ d' ↔ i ∈ a ++ colValDrops t params ++ c) →
        removeCols t d' = removeCols t (a ++ colValDrops t params ++ c)) := by
  refine ⟨?_, ?_, ?_⟩
  · simp only [ignoreColIf, ha, hc]
  · intro i
    simp [List.mem_append, or_assoc]
  · intro d' h
    exact removeCols_congr t d' (a ++ colValDrops t params ++ c) h

/-- Witness for C8: on `[[A,B],[A,C]]`, the index rule `{index:0}` and the
value rule `{val:"A"}` both name column 0; the drop lists are `[0]` and
`[0,0]`, and the column is removed once, giving `[[B],[C]]`. -/
theorem c8_col_drop_union_law_witness :
    ignoreColIf [[.str "A", .str "B"], [.str "A", .str "C"]]
        [Rule.mk (some (.one 0)) .undef .undef none none,
         Rule.mk none .undef .undef (some (.str "A")) none]
      = .ok (removeCols [[.str "A", .str "B"], [.str "A", .str "C"]]
          ([0] ++ colValDrops [[.str "A", .str "B"], [.str "A", .str "C"]]
              [Rule.mk (some (.one 0)) .undef .undef none none,
               Rule.mk none .undef .undef (some (.str "A")) none] ++ []))
    ∧ colValDrops [[.str "A", .str "B"], [.str "A", .str "C"]]
        [Rule.mk (some (.one 0)) .undef .undef none none,
         Rule.mk none .undef .undef (some (.str "A")) none] = [0, 0]
    ∧ removeCols [[.str "A", .str "B"], [.str "A", .str "C"]] [0, 0, 0]
        = [[.str "B"], [.str "C"]] :=
  ⟨(c8_col_drop_union_law [[.str "A", .str "B"], [.str "A", .str "C"]]
      [Rule.mk (some (.one 0)) .undef .undef none none,
       Rule.mk none .undef .undef (some (.str "A")) none] [0] [] rfl rfl).1,
   rfl, rfl⟩
